/-
Verification of the BN3101A vital-signs monitoring repository.

Shallow embedding of the signal-processing core of the three Python
source files:
  * visualise_signals.py            (batch CSV visualisation)
  * visualise_signals_realtime2.py  (simulated real-time visualisation)
  * simple_ppg_eeg_display.py       (serial real-time PPG/EEG display)

Floats are modelled as rationals (ℚ); numpy/pandas element-wise series
operations become List maps; collections.deque with maxlen becomes a
list that drops its oldest elements past capacity.
-/
import Mathlib

namespace BN3101A

/-! ### Sliding-window buffers

`collections.deque(maxlen = cap)` with `append`: the new element goes to
the right, and if the deque is full the oldest (leftmost) element is
evicted. -/

/-- One `deque.append` on a deque with `maxlen = cap`. -/
def dq_push (cap : ℕ) (buf : List ℚ) (x : ℚ) : List ℚ :=
  let b := buf ++ [x]
  b.drop (b.length - cap)

/-- A sequence of `deque.append` calls. -/
def dq_pushAll (cap : ℕ) (buf : List ℚ) (xs : List ℚ) : List ℚ :=
  xs.foldl (dq_push cap) buf

/-- The last `cap` elements of a list (all of it when shorter). -/
def lastN (cap : ℕ) (l : List ℚ) : List ℚ :=
  l.drop (l.length - cap)

theorem dq_push_eq_lastN (cap : ℕ) (buf : List ℚ) (x : ℚ) :
    dq_push cap buf x = lastN cap (buf ++ [x]) := rfl

theorem lastN_length (cap : ℕ) (l : List ℚ) :
    (lastN cap l).length = min l.length cap := by
  simp [lastN]; omega

theorem lastN_append_absorb (cap : ℕ) (l xs : List ℚ) :
    lastN cap (lastN cap l ++ xs) = lastN cap (l ++ xs) := by
  rcases le_or_lt l.length cap with h | h
  · have : lastN cap l = l := by simp [lastN, Nat.sub_eq_zero_of_le h]
    rw [this]
  · have hdrop : lastN cap l = l.drop (l.length - cap) := rfl
    have hlen : (lastN cap l).length = cap := by rw [lastN_length]; omega
    have hd : l.length - cap ≤ l.length := Nat.sub_le _ _
    calc lastN cap (lastN cap l ++ xs)
        = ((l.drop (l.length - cap) ++ xs)).drop
            ((l.drop (l.length - cap) ++ xs).length - cap) := rfl
      _ = ((l ++ xs).drop (l.length - cap)).drop
            ((l.drop (l.length - cap) ++ xs).length - cap) := by
            rw [List.drop_append_of_le_length hd]
      _ = (l ++ xs).drop ((l.length - cap) +
            ((l.drop (l.length - cap) ++ xs).length - cap)) := by
            rw [List.drop_drop]
      _ = (l ++ xs).drop ((l ++ xs).length - cap) := by
            congr 1
            simp only [List.length_append, List.length_drop]
            omega

theorem dq_pushAll_eq_lastN (cap : ℕ) (buf : List ℚ) (xs : List ℚ)
    (hb : buf.length ≤ cap) :
    dq_pushAll cap buf xs = lastN cap (buf ++ xs) := by
  induction xs generalizing buf with
  | nil =>
    simp [dq_pushAll, lastN, Nat.sub_eq_zero_of_le hb]
  | cons x xs ih =>
    have hlen : (dq_push cap buf x).length ≤ cap := by
      rw [dq_push_eq_lastN, lastN_length]; omega
    calc dq_pushAll cap buf (x :: xs)
        = dq_pushAll cap (dq_push cap buf x) xs := rfl
      _ = lastN cap (dq_push cap buf x ++ xs) := ih _ hlen
      _ = lastN cap (lastN cap (buf ++ [x]) ++ xs) := by rw [dq_push_eq_lastN]
      _ = lastN cap ((buf ++ [x]) ++ xs) := lastN_append_absorb _ _ _
      _ = lastN cap (buf ++ (x :: xs)) := by simp

/-! ### Abnormality classifiers

From `visualise_signals.py` (pandas series, element-wise comparisons and
`|`) and `visualise_signals_realtime2.py` (numpy arrays, element-wise
comparisons and `np.logical_or`). -/

/-- Batch path, `visualise_signals.py` lines 8-12:
`abnormal_hr = (df['HeartRate'] < 50) | (df['HeartRate'] > 120)`,
`abnormal_spo2 = (df['SPO2'] < 90)`. -/
def detect_abnormalities_p (hr spo2 : List ℚ) : List Bool × List Bool :=
  (hr.map (fun v => decide (v < 50) || decide (120 < v)),
   spo2.map (fun v => decide (v < 90)))

/-- Batch path, `visualise_signals.py` lines 14-17:
`abnormal_eeg = (df['EEG'] < low_threshold) | (df['EEG'] > high_threshold)`
with defaults 20 and 80. -/
def detect_abnormalities_bis (eeg : List ℚ) (low_threshold : ℚ := 20)
    (high_threshold : ℚ := 80) : List Bool :=
  eeg.map (fun v => decide (v < low_threshold) || decide (high_threshold < v))

/-- Live path, `visualise_signals_realtime2.py` lines 33-37:
`np.logical_or(np.array(hr_data) < 50, np.array(hr_data) > 120)` and
`np.array(spo2_data) < 90`. -/
def detect_abnormalities_p_live (hr_data spo2_data : List ℚ) :
    List Bool × List Bool :=
  (hr_data.map (fun v => decide (v < 50) || decide (120 < v)),
   spo2_data.map (fun v => decide (v < 90)))

/-- Live path, `visualise_signals_realtime2.py` lines 39-43. -/
def detect_abnormalities_bis_live (eeg_data : List ℚ) (low_threshold : ℚ := 20)
    (high_threshold : ℚ := 80) : List Bool :=
  eeg_data.map (fun v => decide (v < low_threshold) || decide (high_threshold < v))

/-! ### Run segmentation ("alert boxes")

Both files turn a boolean abnormality series into maximal runs of
consecutive indices.  `visualise_signals.py` (lines 19-43) indexes into
the list of abnormal positions (`abnormal_indices[i]`,
`abnormal_indices[i-1]`); `visualise_signals_realtime2.py` (lines 45-72)
carries the previous position in a variable.  Each emitted rectangle
spans buffer positions `start..end`; we record the `(start, end)` index
pairs. -/

/-- Value of the flag series at index `i` (`false` beyond the end). -/
def flagAt (flags : List Bool) (i : ℕ) : Bool := flags.getD i false

/-- Positions holding `true`: the pandas boolean-mask `.index` of
`visualise_signals.py` line 21, and `np.where(abnormal_series)[0]` of
`visualise_signals_realtime2.py` line 51. -/
def abnormalIndices (flags : List Bool) : List ℕ :=
  (List.range flags.length).filter (fun i => flags.getD i false)

/-- The grouping loop of `visualise_signals_realtime2.draw_alert_boxes`
(lines 55-72): carry `start_idx` and `prev_idx`; on a non-consecutive
index emit `(start_idx, prev_idx)` and restart the run. -/
def groupRunsAux (start_idx prev_idx : ℕ) : List ℕ → List (ℕ × ℕ)
  | [] => [(start_idx, prev_idx)]
  | idx :: rest =>
    if idx ≠ prev_idx + 1 then
      (start_idx, prev_idx) :: groupRunsAux idx idx rest
    else groupRunsAux start_idx idx rest

/-- The grouping loop of `visualise_signals.draw_alert_boxes`
(lines 24-43): iterate a position `i` over `abnormal_indices`, comparing
`abnormal_indices[i]` with `abnormal_indices[i-1] + 1`; after the branch
set `end = abnormal_indices[i]`; emit the final `(start, end)` box after
the loop. -/
def segBAux (idxs : List ℕ) (start endv i : ℕ) : List (ℕ × ℕ) :=
  if h : i < idxs.length then
    if idxs.getD i 0 ≠ idxs.getD (i - 1) 0 + 1 then
      (start, endv) :: segBAux idxs (idxs.getD i 0) (idxs.getD i 0) (i + 1)
    else segBAux idxs start (idxs.getD i 0) (i + 1)
  else [(start, endv)]
termination_by idxs.length - i
decreasing_by all_goals omega

/-- Batch-path segmentation, `visualise_signals.draw_alert_boxes`:
empty abnormal set draws nothing, otherwise run the indexing loop from
`start = end = abnormal_indices[0]` and `i = 1`. -/
def draw_alert_boxes_batch (flags : List Bool) : List (ℕ × ℕ) :=
  match abnormalIndices flags with
  | [] => []
  | i0 :: _ => segBAux (abnormalIndices flags) i0 i0 1

/-- Live-path segmentation, `visualise_signals_realtime2.draw_alert_boxes`
(lines 45-72), including its guard
`if len(time_series) == 0 or not any(abnormal_series): return`. -/
def draw_alert_boxes_live (time_series : List ℚ) (abnormal_series : List Bool) :
    List (ℕ × ℕ) :=
  if time_series.length = 0 ∨ abnormal_series.any (fun b => b) = false then []
  else
    match abnormalIndices abnormal_series with
    | [] => []
    | start_idx :: rest => groupRunsAux start_idx start_idx rest

/-- A maximal contiguous run of `true` flags: `s.1 ≤ s.2`, every index in
`[s.1, s.2]` is flagged, and the run extends neither left nor right. -/
def IsMaxRun (flags : List Bool) (s : ℕ × ℕ) : Prop :=
  s.1 ≤ s.2 ∧ s.2 < flags.length ∧
  (∀ i, s.1 ≤ i → i ≤ s.2 → flagAt flags i = true) ∧
  (s.1 = 0 ∨ flagAt flags (s.1 - 1) = false) ∧
  flagAt flags (s.2 + 1) = false

/-- The continuation of the run currently open at `prev`: every index in
`(prev, e]` is flagged and the run stops after `e`. -/
def RunEnd (flags : List Bool) (prev e : ℕ) : Prop :=
  prev ≤ e ∧ e < flags.length ∧
  (∀ i, prev < i → i ≤ e → flagAt flags i = true) ∧
  flagAt flags (e + 1) = false

theorem flagAt_eq_false_of_le (flags : List Bool) (i : ℕ)
    (h : flags.length ≤ i) : flagAt flags i = false := by
  simp [flagAt, List.getD_eq_getElem?_getD, List.getElem?_eq_none h]

theorem mem_abnormalIndices (flags : List Bool) (i : ℕ) :
    i ∈ abnormalIndices flags ↔ i < flags.length ∧ flagAt flags i = true := by
  simp [abnormalIndices, List.mem_filter, List.mem_range, flagAt]

theorem abnormalIndices_pairwise (flags : List Bool) :
    (abnormalIndices flags).Pairwise (· < ·) :=
  (List.pairwise_lt_range _).filter _

theorem segBAux_eq_groupRunsAux (idxs : List ℕ) (i start endv : ℕ)
    (hi : 0 < i) (he : endv = idxs.getD (i - 1) 0) :
    segBAux idxs start endv i = groupRunsAux start endv (idxs.drop i) := by
  rw [segBAux]
  by_cases h : i < idxs.length
  · rw [dif_pos h, List.drop_eq_getElem_cons h,
      ← List.getD_eq_getElem idxs 0 h]
    by_cases hgap : idxs.getD i 0 ≠ idxs.getD (i - 1) 0 + 1
    · rw [if_pos hgap, groupRunsAux, if_pos (he ▸ hgap)]
      rw [segBAux_eq_groupRunsAux idxs (i + 1) _ _ (by omega) (by simp)]
    · rw [if_neg hgap, groupRunsAux, if_neg (he ▸ hgap)]
      rw [segBAux_eq_groupRunsAux idxs (i + 1) _ _ (by omega) (by simp)]
  · rw [dif_neg h, List.drop_eq_nil_of_le (by omega), groupRunsAux]
termination_by idxs.length - i
decreasing_by all_goals omega

theorem isMaxRun_of_runEnd (flags : List Bool) (start e : ℕ)
    (hl : start = 0 ∨ flagAt flags (start - 1) = false)
    (hf : flagAt flags start = true)
    (hre : RunEnd flags start e) : IsMaxRun flags (start, e) := by
  obtain ⟨h1, h2, h3, h4⟩ := hre
  refine ⟨h1, h2, ?_, hl, h4⟩
  intro i hi1 hi2
  rcases Nat.eq_or_lt_of_le hi1 with rfl | hlt
  · exact hf
  · exact h3 i hlt hi2

theorem runEnd_stop (flags : List Bool) (prev e : ℕ)
    (hstop : flagAt flags (prev + 1) = false)
    (h : RunEnd flags prev e) : e = prev := by
  obtain ⟨h1, h2, h3, _⟩ := h
  by_contra hne
  have := h3 (prev + 1) (Nat.lt_succ_self _) (by omega)
  rw [hstop] at this
  exact Bool.false_ne_true this

/-- Correctness of the carried-variable grouping loop.  The invariants
say: `[start, prev]` is a flagged block that cannot extend left, and
`rest` lists, in increasing order, exactly the flagged indices beyond
`prev`. -/
theorem groupRunsAux_spec (flags : List Bool) (rest : List ℕ) :
    ∀ start prev, start ≤ prev → prev < flags.length →
    (∀ i, start ≤ i → i ≤ prev → flagAt flags i = true) →
    (start = 0 ∨ flagAt flags (start - 1) = false) →
    (∀ j, j ∈ rest ↔ prev < j ∧ j < flags.length ∧ flagAt flags j = true) →
    rest.Pairwise (· < ·) →
    ∀ a b : ℕ, (a, b) ∈ groupRunsAux start prev rest ↔
      ((a = start ∧ RunEnd flags prev b) ∨
       (prev < a ∧ IsMaxRun flags (a, b))) := by
  induction rest with
  | nil =>
    intro start prev h1 h2 h3 h4 hmem _ a b
    have hnone : ∀ j, prev < j → flagAt flags j = false := by
      intro j hj
      by_cases hjn : j < flags.length
      · cases hcase : flagAt flags j with
        | false => rfl
        | true => exact absurd ((hmem j).2 ⟨hj, hjn, hcase⟩) (List.not_mem_nil j)
      · exact flagAt_eq_false_of_le _ _ (by omega)
    simp only [groupRunsAux, List.mem_singleton, Prod.mk.injEq]
    constructor
    · rintro ⟨rfl, rfl⟩
      exact Or.inl ⟨rfl, le_refl _, h2,
        fun i hi1 hi2 => absurd hi2 (by omega),
        hnone _ (Nat.lt_succ_self _)⟩
    · rintro (⟨rfl, hre⟩ | ⟨hlt, hmr⟩)
      · exact ⟨rfl, runEnd_stop flags prev b (hnone _ (Nat.lt_succ_self _)) hre⟩
      · exfalso
        obtain ⟨hm1, hm2, hm3, _, _⟩ := hmr
        have hf := hm3 a (le_refl _) hm1
        rw [hnone a hlt] at hf
        exact Bool.false_ne_true hf
  | cons i rest ih =>
    intro start prev h1 h2 h3 h4 hmem hsort a b
    obtain ⟨hpi, hin, hif⟩ := (hmem i).1 (List.mem_cons_self i rest)
    have hsort' : rest.Pairwise (· < ·) := hsort.of_cons
    have hlt_tail : ∀ j ∈ rest, i < j := fun j hj =>
      (List.pairwise_cons.1 hsort).1 j hj
    have hmem' : ∀ j, j ∈ rest ↔ i < j ∧ j < flags.length ∧
        flagAt flags j = true := by
      intro j
      constructor
      · intro hj
        have hp := (hmem j).1 (List.mem_cons_of_mem i hj)
        exact ⟨hlt_tail j hj, hp.2.1, hp.2.2⟩
      · rintro ⟨hj1, hj2, hj3⟩
        rcases List.mem_cons.1 ((hmem j).2 ⟨by omega, hj2, hj3⟩) with rfl | h
        · omega
        · exact h
    by_cases hgap : i = prev + 1
    · -- consecutive index: the open run extends through i
      have hrun : groupRunsAux start prev (i :: rest) =
          groupRunsAux start i rest := by
        simp only [groupRunsAux, if_neg (by omega : ¬ i ≠ prev + 1)]
      rw [hrun, ih start i (by omega) hin
        (fun k hk1 hk2 => by
          rcases Nat.lt_or_ge k i with hklt | hkge
          · exact h3 k hk1 (by omega)
          · have hki : k = i := by omega
            rw [hki]; exact hif)
        h4 hmem' hsort']
      constructor
      · rintro (⟨rfl, he1, he2, he3, he4⟩ | ⟨hlt, hmr⟩)
        · refine Or.inl ⟨rfl, by omega, he2, ?_, he4⟩
          intro k hk1 hk2
          rcases Nat.lt_or_ge i k with hik | hik
          · exact he3 k hik hk2
          · have hki : k = i := by omega
            rw [hki]; exact hif
        · exact Or.inr ⟨by omega, hmr⟩
      · rintro (⟨rfl, he1, he2, he3, he4⟩ | ⟨hlt, hmr⟩)
        · have hbi : i ≤ b := by
            by_contra hc
            have hbp : b = prev := by omega
            rw [hbp, ← hgap, hif] at he4
            exact Bool.noConfusion he4
          refine Or.inl ⟨rfl, hbi, he2, ?_, he4⟩
          intro k hk1 hk2
          exact he3 k (by omega) hk2
        · refine Or.inr ⟨?_, hmr⟩
          rcases Nat.lt_or_ge i a with h | h
          · exact h
          · exfalso
            have ha : a = i := by omega
            obtain ⟨_, _, _, hleft, _⟩ := hmr
            rcases hleft with h0 | hfl
            · omega
            · rw [ha, hgap, Nat.add_sub_cancel, h3 prev h1 (le_refl _)] at hfl
              exact Bool.noConfusion hfl
    · -- gap: close the run at prev, restart at i
      have hge2 : prev + 2 ≤ i := by omega
      have hstop : flagAt flags (prev + 1) = false := by
        by_cases hb : prev + 1 < flags.length
        · cases hcase : flagAt flags (prev + 1) with
          | false => rfl
          | true =>
            rcases List.mem_cons.1 ((hmem _).2
              ⟨Nat.lt_succ_self _, hb, hcase⟩) with he | h
            · omega
            · have := hlt_tail _ h; omega
        · exact flagAt_eq_false_of_le _ _ (by omega)
      have hleft_i : i = 0 ∨ flagAt flags (i - 1) = false := by
        refine Or.inr ?_
        cases hcase : flagAt flags (i - 1) with
        | false => rfl
        | true =>
          exfalso
          rcases List.mem_cons.1 ((hmem _).2
            ⟨by omega, by omega, hcase⟩) with he | h
          · omega
          · have := hlt_tail _ h; omega
      have hrun : groupRunsAux start prev (i :: rest) =
          (start, prev) :: groupRunsAux i i rest := by
        simp only [groupRunsAux, if_pos (by omega : i ≠ prev + 1)]
      rw [hrun, List.mem_cons, Prod.mk.injEq,
        ih i i (le_refl _) hin
          (fun k hk1 hk2 => by
            have hki : k = i := by omega
            rw [hki]; exact hif)
          hleft_i hmem' hsort']
      constructor
      · rintro (⟨rfl, rfl⟩ | ⟨hai, hre⟩ | ⟨hlt, hmr⟩)
        · exact Or.inl ⟨rfl, le_refl _, h2,
            fun k hk1 hk2 => absurd hk2 (by omega), hstop⟩
        · refine Or.inr ⟨by omega, ?_⟩
          rw [hai]
          exact isMaxRun_of_runEnd flags i b hleft_i hif hre
        · exact Or.inr ⟨by omega, hmr⟩
      · rintro (⟨rfl, hre⟩ | ⟨hlt, hmr⟩)
        · exact Or.inl ⟨rfl, runEnd_stop flags prev b hstop hre⟩
        · have hmr2 := hmr
          obtain ⟨hm1, hm2, hm3, hm4, hm5⟩ := hmr2
          have haf : flagAt flags a = true := hm3 a (le_refl _) hm1
          rcases List.mem_cons.1 ((hmem a).2 ⟨hlt, by omega, haf⟩) with hai | h
          · exact Or.inr (Or.inl ⟨hai, hai ▸ hm1, hm2,
              fun k hk1 hk2 => hm3 k (by omega) hk2, hm5⟩)
          · exact Or.inr (Or.inr ⟨hlt_tail a h, hmr⟩)

/-- Full characterisation of the batch segmenter: it emits exactly the
maximal contiguous runs of true flags. -/
theorem draw_alert_boxes_batch_spec (flags : List Bool) (a b : ℕ) :
    (a, b) ∈ draw_alert_boxes_batch flags ↔ IsMaxRun flags (a, b) := by
  cases hidx : abnormalIndices flags with
  | nil =>
    have hform : draw_alert_boxes_batch flags = [] := by
      unfold draw_alert_boxes_batch
      rw [hidx]
    rw [hform]
    simp only [List.not_mem_nil, false_iff]
    rintro ⟨hm1, hm2, hm3, _, _⟩
    have haf : flagAt flags a = true := hm3 a (le_refl _) hm1
    have : a ∈ abnormalIndices flags :=
      (mem_abnormalIndices flags a).2 ⟨by omega, haf⟩
    rw [hidx] at this
    exact List.not_mem_nil a this
  | cons i0 rest =>
    have hform : draw_alert_boxes_batch flags = groupRunsAux i0 i0 rest := by
      unfold draw_alert_boxes_batch
      rw [hidx]
      exact segBAux_eq_groupRunsAux (i0 :: rest) 1 i0 i0 (by omega) rfl
    rw [hform]
    have hsorted := abnormalIndices_pairwise flags
    rw [hidx] at hsorted
    have hi0 : i0 ∈ abnormalIndices flags := by rw [hidx]; exact List.mem_cons_self _ _
    obtain ⟨hi0n, hi0f⟩ := (mem_abnormalIndices flags i0).1 hi0
    have hlt_tail : ∀ j ∈ rest, i0 < j := fun j hj =>
      (List.pairwise_cons.1 hsorted).1 j hj
    have hmem' : ∀ j, j ∈ rest ↔ i0 < j ∧ j < flags.length ∧
        flagAt flags j = true := by
      intro j
      constructor
      · intro hj
        have : j ∈ abnormalIndices flags := by
          rw [hidx]; exact List.mem_cons_of_mem i0 hj
        obtain ⟨hj1, hj2⟩ := (mem_abnormalIndices flags j).1 this
        exact ⟨hlt_tail j hj, hj1, hj2⟩
      · rintro ⟨hj1, hj2, hj3⟩
        have : j ∈ abnormalIndices flags :=
          (mem_abnormalIndices flags j).2 ⟨hj2, hj3⟩
        rw [hidx] at this
        rcases List.mem_cons.1 this with rfl | h
        · omega
        · exact h
    have hleft : i0 = 0 ∨ flagAt flags (i0 - 1) = false := by
      by_cases h0 : i0 = 0
      · exact Or.inl h0
      · refine Or.inr ?_
        cases hcase : flagAt flags (i0 - 1) with
        | false => rfl
        | true =>
          exfalso
          have : i0 - 1 ∈ abnormalIndices flags :=
            (mem_abnormalIndices flags _).2 ⟨by omega, hcase⟩
          rw [hidx] at this
          rcases List.mem_cons.1 this with he | h
          · omega
          · have := hlt_tail _ h; omega
    rw [groupRunsAux_spec flags rest i0 i0 (le_refl _) hi0n
      (fun k hk1 hk2 => by
        have hki : k = i0 := by omega
        rw [hki]; exact hi0f)
      hleft hmem' (hsorted.of_cons) a b]
    constructor
    · rintro (⟨rfl, hre⟩ | ⟨_, hmr⟩)
      · exact isMaxRun_of_runEnd flags a b hleft hi0f hre
      · exact hmr
    · intro hmr
      have hmr2 := hmr
      obtain ⟨hm1, hm2, hm3, hm4, hm5⟩ := hmr2
      have haf : flagAt flags a = true := hm3 a (le_refl _) hm1
      have : a ∈ abnormalIndices flags :=
        (mem_abnormalIndices flags a).2 ⟨by omega, haf⟩
      rw [hidx] at this
      rcases List.mem_cons.1 this with rfl | h
      · exact Or.inl ⟨rfl, hm1, hm2,
          fun k hk1 hk2 => hm3 k (by omega) hk2, hm5⟩
      · exact Or.inr ⟨hlt_tail a h, hmr⟩

theorem abnormalIndices_eq_nil_of_all_false (flags : List Bool)
    (h : ∀ b ∈ flags, b = false) : abnormalIndices flags = [] := by
  rw [abnormalIndices, List.filter_eq_nil_iff]
  intro i hi
  rw [List.mem_range] at hi
  rw [List.getD_eq_getElem flags false hi]
  have := h flags[i] (List.getElem_mem hi)
  simp [this]

theorem draw_alert_boxes_batch_all_false (flags : List Bool)
    (h : ∀ b ∈ flags, b = false) : draw_alert_boxes_batch flags = [] := by
  unfold draw_alert_boxes_batch
  rw [abnormalIndices_eq_nil_of_all_false flags h]

/-- The live segmenter agrees with the batch segmenter whenever the time
series has the length of the flag series. -/
theorem draw_alert_boxes_live_eq_batch (times : List ℚ) (flags : List Bool)
    (hlen : times.length = flags.length) :
    draw_alert_boxes_live times flags = draw_alert_boxes_batch flags := by
  unfold draw_alert_boxes_live
  by_cases hguard : times.length = 0 ∨ flags.any (fun b => b) = false
  · rw [if_pos hguard]
    have hfalse : ∀ b ∈ flags, b = false := by
      rcases hguard with h0 | hany
      · intro b hb
        exfalso
        rw [h0] at hlen
        rw [List.eq_nil_of_length_eq_zero hlen.symm] at hb
        exact List.not_mem_nil b hb
      · intro b hb
        rw [List.any_eq_false] at hany
        have := hany b hb
        simpa using this
    rw [draw_alert_boxes_batch_all_false flags hfalse]
  · rw [if_neg hguard]
    unfold draw_alert_boxes_batch
    cases hidx : abnormalIndices flags with
    | nil => rfl
    | cons i0 rest =>
      exact (segBAux_eq_groupRunsAux (i0 :: rest) 1 i0 i0 (by omega) rfl).symm

/-! ### Digital filters (`simple_ppg_eeg_display.py`, STEP 3)

Filter coefficients (`design_filters`) come from `scipy.signal.butter`
and `scipy.signal.iirnotch`; they are irrational reals, so the embedding
takes the coefficient sets as parameters, exactly as `filter_ppg(data,
sos)` and `filter_eeg(data, sos, notch_b, notch_a)` do.  A second-order
section (or a 3-tap `(b, a)` pair such as the notch filter) is six
rationals. -/

/-- One second-order section `[b0 b1 b2 a0 a1 a2]` (the shape produced by
`scipy.signal.butter(..., output='sos')`), also used for the 3-tap
`(notch_b, notch_a)` pair of `scipy.signal.iirnotch`. -/
structure Biquad where
  b0 : ℚ
  b1 : ℚ
  b2 : ℚ
  a0 : ℚ
  a1 : ℚ
  a2 : ℚ
deriving DecidableEq

/-- Direct-form-II-transposed run of one section from initial state
`(z1, z2)`: `scipy.signal.lfilter` on a 3-tap filter, which normalises
every coefficient by `a0`.  `scipy.signal.sosfilt` is documented as
`lfilter` applied per section. -/
def biquadRun (c : Biquad) : ℚ → ℚ → List ℚ → List ℚ
  | _, _, [] => []
  | z1, z2, x :: xs =>
    let y := (c.b0 / c.a0) * x + z1
    y :: biquadRun c ((c.b1 / c.a0) * x + z2 - (c.a1 / c.a0) * y)
      ((c.b2 / c.a0) * x - (c.a2 / c.a0) * y) xs

/-- Cascade of second-order sections from zero state:
`scipy.signal.sosfilt(sos, data)`. -/
def sosfilt (sos : List Biquad) (data : List ℚ) : List ℚ :=
  sos.foldl (fun d c => biquadRun c 0 0 d) data

/-- Steady-state initial conditions of a 3-tap filter:
`scipy.signal.lfilter_zi(b, a)`, i.e. the solution `zi` of
`(I - A^T) zi = B` with `A` the companion matrix of the normalised
denominator and `B = b[1:] - b[0]*a[1:]` (solved here in closed form for
the 2x2 system; division is total junk if the system is singular, which
no stable filter is). -/
def lfilter_zi (c : Biquad) : ℚ × ℚ :=
  let a1 := c.a1 / c.a0
  let a2 := c.a2 / c.a0
  let b0 := c.b0 / c.a0
  let b1 := c.b1 / c.a0
  let b2 := c.b2 / c.a0
  let s1 := b1 - b0 * a1
  let s2 := b2 - b0 * a2
  let z1 := (s1 + s2) / (1 + a1 + a2)
  (z1, s2 - a2 * z1)

/-- Odd extension by 9 samples on each side
(`scipy.signal._arraytools.odd_ext` with the default
`padlen = 3 * max(len(a), len(b)) = 9` of `filtfilt` for 3-tap filters):
`concat(2*x[0] - x[9:0:-1], x, 2*x[-1] - x[-2:-11:-1])`. -/
def odd_ext9 (x : List ℚ) : List ℚ :=
  ((List.range 9).map (fun k => 2 * x.getD 0 0 - x.getD (9 - k) 0)) ++ x ++
  ((List.range 9).map (fun k =>
    2 * x.getD (x.length - 1) 0 - x.getD (x.length - 2 - k) 0))

/-- Zero-phase forward-backward filtering:
`scipy.signal.filtfilt(b, a, x)` with its defaults (`padtype='odd'`,
`padlen=9` for 3-tap filters, Gustafsson method off).  scipy raises
`ValueError` when the input is not longer than `padlen`; that is the
`none` case. -/
def filtfilt (c : Biquad) (x : List ℚ) : Option (List ℚ) :=
  if x.length ≤ 9 then none
  else
    let ext := odd_ext9 x
    let zi := lfilter_zi c
    let x0 := ext.getD 0 0
    let y1 := biquadRun c (zi.1 * x0) (zi.2 * x0) ext
    let y0 := y1.getD (y1.length - 1) 0
    let y2 := (biquadRun c (zi.1 * y0) (zi.2 * y0) y1.reverse).reverse
    some ((y2.drop 9).take x.length)

/-- `simple_ppg_eeg_display.filter_ppg` (lines 65-68): passthrough below
20 samples, else one causal band-pass cascade. -/
def filter_ppg (data : List ℚ) (sos : List Biquad) : List ℚ :=
  if data.length < 20 then data else sosfilt sos data

/-- `simple_ppg_eeg_display.filter_eeg` (lines 70-74): passthrough below
20 samples, else band-pass cascade followed by zero-phase notch. -/
def filter_eeg (data : List ℚ) (sos : List Biquad) (notch : Biquad) :
    Option (List ℚ) :=
  if data.length < 20 then some data
  else filtfilt notch (sosfilt sos data)

theorem biquadRun_length (c : Biquad) (xs : List ℚ) :
    ∀ z1 z2, (biquadRun c z1 z2 xs).length = xs.length := by
  induction xs with
  | nil => intro z1 z2; rfl
  | cons x xs ih =>
    intro z1 z2
    simp only [biquadRun, List.length_cons]
    rw [ih]

theorem sosfilt_length (sos : List Biquad) (data : List ℚ) :
    (sosfilt sos data).length = data.length := by
  induction sos generalizing data with
  | nil => rfl
  | cons c sos ih =>
    calc (sosfilt (c :: sos) data).length
        = (sosfilt sos (biquadRun c 0 0 data)).length := rfl
      _ = (biquadRun c 0 0 data).length := ih _
      _ = data.length := biquadRun_length c data 0 0

theorem odd_ext9_length (x : List ℚ) : (odd_ext9 x).length = x.length + 18 := by
  simp [odd_ext9]
  omega

theorem filtfilt_length (c : Biquad) (x : List ℚ) (h : 9 < x.length) :
    ∃ y, filtfilt c x = some y ∧ y.length = x.length := by
  refine ⟨_, by rw [filtfilt, if_neg (by omega)], ?_⟩
  simp only [List.length_take, List.length_drop, List.length_reverse,
    biquadRun_length, odd_ext9_length]
  omega

/-! ### Peak detection and heart rate (`simple_ppg_eeg_display.py`, STEP 4)

`detect_peaks` wraps `scipy.signal.find_peaks(data, height, distance)`;
the wrapped scipy pipeline (local-maxima scan with plateau midpoints,
height filter, then priority-ordered distance pruning) is embedded
following scipy 1.x `_peak_finding.py` / `_peak_finding_utils.pyx`. -/

/-- numpy `np.mean`. -/
def npMean (xs : List ℚ) : ℚ := xs.sum / xs.length

/-- numpy population variance, the square of `np.std` (`ddof = 0`). -/
def npVar (xs : List ℚ) : ℚ :=
  ((xs.map (fun x => (x - npMean xs) ^ 2)).sum) / xs.length

/-- Python `int()` applied to a float: truncation toward zero
(Lean `Int` division is T-division, matching). -/
def pyInt (q : ℚ) : ℤ := q.num / (q.den : ℤ)

/-- Inner plateau scan of scipy `_local_maxima_1d`: first index at or
after `j` that reaches `iMax` or holds a value different from `v`.
Fuel-driven; callers pass fuel `≥ iMax` so the fuel never runs out. -/
def plateauEnd (x : List ℚ) (iMax : ℕ) (v : ℚ) : ℕ → ℕ → ℕ
  | 0, j => j
  | fuel + 1, j =>
    if j < iMax ∧ x.getD j 0 = v then plateauEnd x iMax v fuel (j + 1) else j

/-- Outer scan of scipy `_local_maxima_1d` from sample index `i`:
strict local maxima with plateau handling, recording a plateau at the
midpoint `(left_edge + right_edge) // 2`; edge samples are never peaks.
After a recorded peak the scan resumes at `i_ahead + 1`. -/
def localMaximaAux (x : List ℚ) (iMax : ℕ) : ℕ → ℕ → List ℕ
  | 0, _ => []
  | fuel + 1, i =>
    if i < iMax then
      if x.getD (i - 1) 0 < x.getD i 0 then
        let ia := plateauEnd x iMax (x.getD i 0) x.length (i + 1)
        if x.getD ia 0 < x.getD i 0 then
          ((i + (ia - 1)) / 2) :: localMaximaAux x iMax fuel (ia + 1)
        else localMaximaAux x iMax fuel (i + 1)
      else localMaximaAux x iMax fuel (i + 1)
    else []

/-- scipy `_local_maxima_1d(x)`. -/
def localMaxima (x : List ℚ) : List ℕ :=
  localMaximaAux x (x.length - 1) x.length 1

/-- Decidable rational form of the find_peaks height test
`mean + 0.5 * std ≤ v` where `std = sqrt var`: equivalent to
`m ≤ v` together with `var ≤ 4 * (v - m)^2` (see
`heightOK_iff_real`). -/
def heightOK (v m var : ℚ) : Bool :=
  decide (m ≤ v) && decide (var ≤ 4 * (v - m) ^ 2)

/-- Insertion into an ascending-by-priority position list. -/
def insertByKey (prio : List ℚ) (i : ℕ) : List ℕ → List ℕ
  | [] => [i]
  | j :: rest =>
    if prio.getD i 0 ≤ prio.getD j 0 then i :: j :: rest
    else j :: insertByKey prio i rest

/-- Ascending argsort of the priority list (`np.argsort`; numpy leaves
the tie order unspecified, and the distance filter below is insensitive
to it). -/
def argsort (prio : List ℚ) : List ℕ :=
  (List.range prio.length).foldr (insertByKey prio) []

/-- One round of scipy `_select_by_peak_distance`: if position `j` is
still kept, drop every other position whose peak index lies within
`dist` of `peaks[j]`.  (scipy scans left and right from `j`, stopping at
the first sufficiently distant neighbour; on the sorted peak list the
removed set is identical.) -/
def distStep (peaks : List ℕ) (dist : ℕ) (keep : List Bool) (j : ℕ) :
    List Bool :=
  if keep.getD j false then
    keep.mapIdx (fun k b =>
      if k = j then b
      else if ((peaks.getD k 0 : ℤ) - (peaks.getD j 0 : ℤ)).natAbs < dist
        then false else b)
  else keep

/-- scipy `_select_by_peak_distance(peaks, priority, distance)`:
process positions from highest to lowest priority. -/
def selectByDistance (peaks : List ℕ) (prio : List ℚ) (dist : ℕ) :
    List Bool :=
  ((argsort prio).reverse).foldl (distStep peaks dist)
    (List.replicate peaks.length true)

/-- Extraction `peaks[keep]` after the distance selection. -/
def find_peaks_result (cand : List ℕ) (prio : List ℚ) (dist : ℕ) : List ℕ :=
  ((List.range cand.length).filter
    (fun k => (selectByDistance cand prio dist).getD k false)).map
    (fun k => cand.getD k 0)

/-- `simple_ppg_eeg_display.detect_peaks` (lines 79-85): fewer than 10
samples gives no peaks; otherwise `scipy.signal.find_peaks` with
`height = np.mean(data) + 0.5*np.std(data)` and
`distance = int(rate * 0.5)`.  scipy raises `ValueError` when the
distance is below 1; that is the `none` case. -/
def detect_peaks (ppg_data : List ℚ) (rate : ℚ) : Option (List ℕ) :=
  if ppg_data.length < 10 then some [] else
  let m := npMean ppg_data
  let v := npVar ppg_data
  let dist := pyInt (rate * (1 / 2))
  if dist < 1 then none else
  let cand := (localMaxima ppg_data).filter
    (fun p => heightOK (ppg_data.getD p 0) m v)
  let prio := cand.map (fun p => ppg_data.getD p 0)
  some (find_peaks_result cand prio dist.toNat)

/-- `simple_ppg_eeg_display.calculate_heart_rate` (lines 87-92):
`np.diff(peaks) / rate`, `hr = 60 / np.mean(intervals)`, gated to the
open interval `(40, 200)` with 0 as the invalid value. -/
def calculate_heart_rate (peaks : List ℕ) (rate : ℚ) : ℚ :=
  if peaks.length < 2 then 0
  else
    let intervals := (peaks.zip peaks.tail).map
      (fun pq => ((pq.2 : ℚ) - (pq.1 : ℚ)) / rate)
    let hr := 60 / npMean intervals
    if 40 < hr ∧ hr < 200 then hr else 0

theorem npVar_nonneg (xs : List ℚ) : 0 ≤ npVar xs := by
  apply div_nonneg
  · apply List.sum_nonneg
    intro x hx
    obtain ⟨y, _, rfl⟩ := List.mem_map.1 hx
    positivity
  · positivity

/-- The decidable height test is exactly the scipy condition
`value ≥ mean + 0.5 * sqrt(var)` over the reals. -/
theorem heightOK_iff_real (v m s : ℚ) (hs : 0 ≤ s) :
    heightOK v m s = true ↔ (m : ℝ) + Real.sqrt s / 2 ≤ (v : ℝ) := by
  rw [heightOK, Bool.and_eq_true, decide_eq_true_eq, decide_eq_true_eq]
  constructor
  · rintro ⟨h1, h2⟩
    have hvm : (0 : ℝ) ≤ (v : ℝ) - m := by
      have : (m : ℝ) ≤ v := by exact_mod_cast h1
      linarith
    have hcast : (s : ℝ) ≤ ((2 * ((v : ℝ) - m)) ^ 2) := by
      have : (s : ℝ) ≤ 4 * ((v : ℝ) - m) ^ 2 := by exact_mod_cast h2
      nlinarith
    have := Real.sqrt_le_sqrt hcast
    rw [Real.sqrt_sq (by linarith)] at this
    linarith
  · intro h
    have hsq : Real.sqrt s ≥ 0 := Real.sqrt_nonneg s
    have h1 : (m : ℝ) ≤ v := by linarith
    have h2 : Real.sqrt s ≤ 2 * ((v : ℝ) - m) := by linarith
    have h3 : (s : ℝ) ≤ (2 * ((v : ℝ) - m)) ^ 2 := by
      nlinarith [Real.sq_sqrt ((by exact_mod_cast hs : (0:ℝ) ≤ (s : ℝ)))]
    constructor
    · exact_mod_cast h1
    · have : (s : ℝ) ≤ 4 * ((v : ℝ) - m) ^ 2 := by nlinarith
      exact_mod_cast this

theorem mem_insertByKey (prio : List ℚ) (i a : ℕ) (l : List ℕ) :
    a ∈ insertByKey prio i l ↔ a = i ∨ a ∈ l := by
  induction l with
  | nil => simp [insertByKey]
  | cons j rest ih =>
    rw [insertByKey]
    by_cases h : prio.getD i 0 ≤ prio.getD j 0
    · rw [if_pos h]
      simp [List.mem_cons]
    · rw [if_neg h]
      simp only [List.mem_cons, ih]
      tauto

theorem mem_argsort (prio : List ℚ) (k : ℕ) (hk : k < prio.length) :
    k ∈ argsort prio := by
  have hk2 : k ∈ List.range prio.length := List.mem_range.2 hk
  rw [argsort]
  generalize List.range prio.length = l at hk2
  induction l with
  | nil => exact absurd hk2 (List.not_mem_nil k)
  | cons a l ih =>
    rcases List.mem_cons.1 hk2 with rfl | h
    · exact (mem_insertByKey _ _ _ _).2 (Or.inl rfl)
    · exact (mem_insertByKey _ _ _ _).2 (Or.inr (ih h))

theorem distStep_getD_mono (peaks : List ℕ) (dist : ℕ) (keep : List Bool)
    (j k : ℕ) (h : (distStep peaks dist keep j).getD k false = true) :
    keep.getD k false = true := by
  rw [distStep] at h
  by_cases hj : keep.getD j false
  · rw [if_pos hj] at h
    rw [List.getD_eq_getElem?_getD, List.getElem?_mapIdx] at h
    rw [List.getD_eq_getElem?_getD]
    cases hkk : keep[k]? with
    | none => simp [hkk] at h
    | some b =>
      simp only [hkk, Option.map_some', Option.getD_some] at h
      simp only [hkk, Option.getD_some]
      by_cases hkj : k = j
      · rwa [if_pos hkj] at h
      · rw [if_neg hkj] at h
        by_cases hclose :
            ((peaks.getD k 0 : ℤ) - (peaks.getD j 0 : ℤ)).natAbs < dist
        · rw [if_pos hclose] at h; exact absurd h (by simp)
        · rwa [if_neg hclose] at h
  · rwa [if_neg hj] at h

theorem distStep_getD_self (peaks : List ℕ) (dist : ℕ) (keep : List Bool)
    (j : ℕ) : (distStep peaks dist keep j).getD j false =
      keep.getD j false := by
  rw [distStep]
  by_cases hj : keep.getD j false
  · rw [if_pos hj]
    rw [List.getD_eq_getElem?_getD, List.getD_eq_getElem?_getD,
      List.getElem?_mapIdx]
    cases hkk : keep[j]? with
    | none => simp [hkk]
    | some b => simp [hkk]
  · rw [if_neg hj]

theorem distStep_kills (peaks : List ℕ) (dist : ℕ) (keep : List Bool)
    (j k : ℕ) (hj : keep.getD j false = true) (hkj : k ≠ j)
    (hclose : ((peaks.getD k 0 : ℤ) - (peaks.getD j 0 : ℤ)).natAbs < dist) :
    (distStep peaks dist keep j).getD k false = false := by
  rw [distStep, if_pos hj]
  rw [List.getD_eq_getElem?_getD, List.getElem?_mapIdx]
  cases hkk : keep[k]? with
  | none => simp [hkk]
  | some b =>
    simp only [hkk, Option.map_some', Option.getD_some]
    rw [if_neg hkj, if_pos hclose]

theorem foldl_distStep_mono (peaks : List ℕ) (dist : ℕ) (js : List ℕ) :
    ∀ keep k, ((js.foldl (distStep peaks dist) keep).getD k false = true) →
    keep.getD k false = true := by
  induction js with
  | nil => intro keep k h; exact h
  | cons j js ih =>
    intro keep k h
    exact distStep_getD_mono peaks dist keep j k (ih _ k h)

/-- After processing every position in `js`, two surviving positions
cannot be within `dist` of each other if either of them is in `js`. -/
theorem foldl_distStep_separates (peaks : List ℕ) (dist : ℕ) (js : List ℕ) :
    ∀ keep j k, j ∈ js → k ≠ j →
    ((peaks.getD k 0 : ℤ) - (peaks.getD j 0 : ℤ)).natAbs < dist →
    ((js.foldl (distStep peaks dist) keep).getD j false = true) →
    ((js.foldl (distStep peaks dist) keep).getD k false = true) →
    False := by
  induction js with
  | nil => intro keep j k hj; exact absurd hj (List.not_mem_nil j)
  | cons j0 js ih =>
    intro keep j k hj hkj hclose hjt hkt
    rcases List.mem_cons.1 hj with rfl | hjs
    · have hstepj : (distStep peaks dist keep j).getD j false = true :=
        foldl_distStep_mono peaks dist js _ j hjt
      have hkeepj : keep.getD j false = true := by
        rwa [distStep_getD_self] at hstepj
      have hdead : (distStep peaks dist keep j).getD k false = false :=
        distStep_kills peaks dist keep j k hkeepj hkj hclose
      have halive : (distStep peaks dist keep j).getD k false = true :=
        foldl_distStep_mono peaks dist js _ k hkt
      rw [hdead] at halive
      exact Bool.noConfusion halive
    · exact ih _ j k hjs hkj hclose hjt hkt

/-- Any two distinct peaks surviving the distance selection are at
least `dist` apart. -/
theorem find_peaks_result_spacing (cand : List ℕ) (prio : List ℚ)
    (dist : ℕ) (hlen : prio.length = cand.length) :
    ∀ a ∈ find_peaks_result cand prio dist,
    ∀ b ∈ find_peaks_result cand prio dist,
    a ≠ b → dist ≤ ((a : ℤ) - (b : ℤ)).natAbs := by
  intro a ha b hb hne
  obtain ⟨k1, hk1, rfl⟩ := List.mem_map.1 ha
  obtain ⟨k2, hk2, rfl⟩ := List.mem_map.1 hb
  obtain ⟨hk1r, hk1keep⟩ := List.mem_filter.1 hk1
  obtain ⟨hk2r, hk2keep⟩ := List.mem_filter.1 hk2
  rw [List.mem_range] at hk1r hk2r
  by_contra hcon
  push_neg at hcon
  have hk21 : k2 ≠ k1 := by
    intro hk
    rw [hk] at hne
    exact hne rfl
  have hclose : ((cand.getD k2 0 : ℤ) - (cand.getD k1 0 : ℤ)).natAbs < dist := by
    omega
  have hj : k1 ∈ (argsort prio).reverse :=
    List.mem_reverse.2 (mem_argsort prio k1 (by omega))
  rw [selectByDistance] at hk1keep hk2keep
  exact foldl_distStep_separates cand dist ((argsort prio).reverse)
    (List.replicate cand.length true) k1 k2 hj hk21 hclose hk1keep hk2keep

/-- Every surviving peak is one of the height-filtered candidates. -/
theorem find_peaks_result_subset (cand : List ℕ) (prio : List ℚ)
    (dist : ℕ) : ∀ p ∈ find_peaks_result cand prio dist, p ∈ cand := by
  intro p hp
  obtain ⟨k, hk, rfl⟩ := List.mem_map.1 hp
  obtain ⟨hkr, _⟩ := List.mem_filter.1 hk
  rw [List.mem_range] at hkr
  rw [List.getD_eq_getElem cand 0 hkr]
  exact List.getElem_mem hkr

/-! ### Real-time display state (`simple_ppg_eeg_display.py`, STEP 5)

The heart-rate-relevant state of `RealTimeDisplay.update` (lines
138-158).  A `none` reading models a serial line that failed to parse
(`read_data` returns `(None, None)` and `update` skips the frame).  The
derived plotting caches `ppg_filt`/`eeg_filt`, the timestamps taken from
the wall clock, and the CSV log do not feed back into this state and are
omitted.  `PPG_SAMPLING_RATE = 100`, so `detect_peaks` gets distance
`int(100 * 0.5) = 50 ≥ 1` and never raises; its `Option` is discharged
with `getD []`. -/

structure DispState where
  ppg_raw : List ℚ
  eeg_raw : List ℚ
  heart_rate : ℚ
  peaks : List ℕ
deriving DecidableEq

/-- Initial state: empty deques (maxlen 3000), `heart_rate = 0`,
`peaks = np.array([])`. -/
def dispInit : DispState := ⟨[], [], 0, []⟩

/-- One animation frame of `RealTimeDisplay.update`: on a parsed
reading, append to the raw deques; once more than 50 raw samples exist,
re-filter and re-detect peaks, and recompute the heart rate only when
more than one peak was found. -/
def dispStep (sos : List Biquad) (s : DispState) (reading : Option (ℚ × ℚ)) :
    DispState :=
  match reading with
  | none => s
  | some pe =>
    let ppg := dq_push 3000 s.ppg_raw pe.1
    let eeg := dq_push 3000 s.eeg_raw pe.2
    if 50 < ppg.length then
      let pk := (detect_peaks (filter_ppg ppg sos) 100).getD []
      if 1 < pk.length then
        ⟨ppg, eeg, calculate_heart_rate pk 100, pk⟩
      else ⟨ppg, eeg, s.heart_rate, pk⟩
    else ⟨ppg, eeg, s.heart_rate, s.peaks⟩

/-- A whole session: fold `update` frames from the initial state. -/
def runDisplay (sos : List Biquad) (readings : List (Option (ℚ × ℚ))) :
    DispState :=
  readings.foldl (dispStep sos) dispInit

/-! ### RealTimeDataBuffer (`visualise_signals_realtime2.py`, lines 9-31) -/

structure RTBuf where
  window_size : ℕ
  time_buffer : List ℚ
  hr_buffer : List ℚ
  spo2_buffer : List ℚ
  eeg_buffer : List ℚ
deriving DecidableEq

def RTBuf.init (window_size : ℕ := 180) : RTBuf :=
  ⟨window_size, [], [], [], []⟩

/-- `RealTimeDataBuffer.update` (lines 18-23): appends time, heart rate
and SpO2 unconditionally; appends EEG only when a value is present.  No
validation of any kind is performed on the values. -/
def RTBuf.update (b : RTBuf) (time_val hr_val spo2_val : ℚ)
    (eeg_val : Option ℚ := none) : RTBuf :=
  { b with
    time_buffer := dq_push b.window_size b.time_buffer time_val,
    hr_buffer := dq_push b.window_size b.hr_buffer hr_val,
    spo2_buffer := dq_push b.window_size b.spo2_buffer spo2_val,
    eeg_buffer := match eeg_val with
      | some v => dq_push b.window_size b.eeg_buffer v
      | none => b.eeg_buffer }

/-- The EEG entry of `RealTimeDataBuffer.get_data` (line 30): the EEG
list, or `None` when it is empty. -/
def RTBuf.get_data_eeg (b : RTBuf) : Option (List ℚ) :=
  if b.eeg_buffer.isEmpty then none else some b.eeg_buffer

/-- A sequence of `update` calls from a fresh buffer. -/
def runBuf (w : ℕ) (calls : List (ℚ × ℚ × ℚ × Option ℚ)) : RTBuf :=
  calls.foldl (fun b c => b.update c.1 c.2.1 c.2.2.1 c.2.2.2) (RTBuf.init w)

theorem dq_push_length (cap : ℕ) (l : List ℚ) (x : ℚ) :
    (dq_push cap l x).length = min (l.length + 1) cap := by
  rw [dq_push_eq_lastN, lastN_length, List.length_append]
  rfl

/-- Structural invariant of the buffer reachable states. -/
def BufInv (w : ℕ) (b : RTBuf) : Prop :=
  b.window_size = w ∧
  b.hr_buffer.length = b.time_buffer.length ∧
  b.spo2_buffer.length = b.time_buffer.length ∧
  b.eeg_buffer.length ≤ b.time_buffer.length ∧
  b.time_buffer.length ≤ w

theorem bufInv_update (w : ℕ) (b : RTBuf) (h : BufInv w b)
    (t hr sp : ℚ) (e : Option ℚ) : BufInv w (b.update t hr sp e) := by
  obtain ⟨hw, h1, h2, h3, h4⟩ := h
  refine ⟨hw, ?_, ?_, ?_, ?_⟩ <;>
    simp only [RTBuf.update, dq_push_length]
  · rw [h1]
  · rw [h2]
  · cases e with
    | none => simp only []; omega
    | some v => simp only [dq_push_length]; omega
  · omega

theorem bufInv_runBuf (w : ℕ) (calls : List (ℚ × ℚ × ℚ × Option ℚ)) :
    BufInv w (runBuf w calls) := by
  rw [runBuf]
  have hinit : BufInv w (RTBuf.init w) := by
    refine ⟨rfl, rfl, rfl, le_refl _, ?_⟩
    simp [RTBuf.init]
  generalize RTBuf.init w = b at hinit
  induction calls generalizing b with
  | nil => exact hinit
  | cons c calls ih =>
    exact ih _ (bufInv_update w b hinit c.1 c.2.1 c.2.2.1 c.2.2.2)

/-! ### Claim theorems -/

attribute [local semireducible] Rat.mul Rat.add Rat.sub Rat.inv

set_option maxRecDepth 1000000

set_option maxHeartbeats 1000000

theorem getD_map_bool (f : ℚ → Bool) (l : List ℚ) (i : ℕ) :
    (l.map f).getD i false = true ↔
      i < l.length ∧ f (l.getD i 0) = true := by
  by_cases h : i < l.length
  · rw [List.getD_eq_getElem (l.map f) false (by simpa using h),
      List.getElem_map, List.getD_eq_getElem l 0 h]
    simp [h]
  · rw [List.getD_eq_getElem?_getD,
      List.getElem?_eq_none (by simpa using Nat.le_of_not_lt h)]
    simp [h]

/-- C1: the abnormality classifier flags a heart-rate value abnormal iff
it is below 50 or above 120, an SpO2 value abnormal iff it is strictly
below 90, and an EEG/BIS value abnormal iff it is below the low or above
the high threshold (defaults 20 and 80); in particular classify(SpO2,85)
is true while classify(SpO2,90) and classify(SpO2,95) are false. -/
theorem C1_classifier_thresholds (hr spo2 eeg : List ℚ) (lo hi : ℚ) (i : ℕ) :
    ((detect_abnormalities_p hr spo2).1.getD i false = true ↔
      i < hr.length ∧ (hr.getD i 0 < 50 ∨ 120 < hr.getD i 0)) ∧
    ((detect_abnormalities_p hr spo2).2.getD i false = true ↔
      i < spo2.length ∧ spo2.getD i 0 < 90) ∧
    ((detect_abnormalities_bis eeg lo hi).getD i false = true ↔
      i < eeg.length ∧ (eeg.getD i 0 < lo ∨ hi < eeg.getD i 0)) ∧
    detect_abnormalities_bis eeg = detect_abnormalities_bis eeg 20 80 ∧
    (detect_abnormalities_p [] [85, 90, 95]).2 = [true, false, false] := by
  refine ⟨?_, ?_, ?_, rfl, by decide⟩
  · rw [detect_abnormalities_p, getD_map_bool]
    simp
  · rw [detect_abnormalities_p, getD_map_bool]
    simp
  · rw [detect_abnormalities_bis, getD_map_bool]
    simp

theorem C1_classifier_thresholds_witness :
    (detect_abnormalities_p [] [85, 90, 95]).2 = [true, false, false] :=
  (C1_classifier_thresholds [] [85, 90, 95] [] 20 80 0).2.2.2.2

/-- C2: on an aligned, strictly increasing time base the segmenter emits
exactly the maximal contiguous runs of true flags, judged purely by
index adjacency (the time values are irrelevant to the output); an
all-false input yields no segments; and
segment([false,true,true,false,true]) = [(1,2), (4,4)]. -/
theorem C2_run_segmenter (flags : List Bool) (times times2 : List ℚ)
    (hlen : times.length = flags.length)
    (hlen2 : times2.length = flags.length)
    (hmono : times.Chain' (· < ·)) :
    (∀ a b : ℕ, (a, b) ∈ draw_alert_boxes_batch flags ↔
      IsMaxRun flags (a, b)) ∧
    draw_alert_boxes_live times flags = draw_alert_boxes_live times2 flags ∧
    ((∀ x ∈ flags, x = false) → draw_alert_boxes_batch flags = []) ∧
    draw_alert_boxes_batch [false, true, true, false, true] =
      [(1, 2), (4, 4)] := by
  have hconc : draw_alert_boxes_batch [false, true, true, false, true] =
      [(1, 2), (4, 4)] := by
    rw [← draw_alert_boxes_live_eq_batch [0, 1, 2, 3, 4]
      [false, true, true, false, true] (by decide)]
    decide
  refine ⟨draw_alert_boxes_batch_spec flags, ?_,
    draw_alert_boxes_batch_all_false flags, hconc⟩
  rw [draw_alert_boxes_live_eq_batch times flags hlen,
    draw_alert_boxes_live_eq_batch times2 flags hlen2]

theorem C2_run_segmenter_witness :
    draw_alert_boxes_live [0, 1, 2, 3, 4] [false, true, true, false, true] =
      draw_alert_boxes_live [0, 10, 20, 30, 40]
        [false, true, true, false, true] ∧
    draw_alert_boxes_batch [false, true, true, false, true] =
      [(1, 2), (4, 4)] :=
  ⟨(C2_run_segmenter [false, true, true, false, true] [0, 1, 2, 3, 4]
      [0, 10, 20, 30, 40] (by decide) (by decide)
      (by norm_num [List.chain'_cons])).2.1,
   (C2_run_segmenter [false, true, true, false, true] [0, 1, 2, 3, 4]
      [0, 10, 20, 30, 40] (by decide) (by decide)
      (by norm_num [List.chain'_cons])).2.2.2⟩

/-- C3: with fewer than 2 peaks the estimator returns 0 (invalid); with
at least 2 peaks it returns 60 divided by the mean inter-peak interval
(index differences divided by the sampling rate), accepted only when
strictly between 40 and 200 bpm and 0 otherwise; every output is 0 or
strictly inside (40, 200); peaks [0,50,100] at 100 Hz give the valid
120 bpm and peaks [0,10] at 100 Hz give 0. -/
theorem C3_heart_rate_estimator (peaks : List ℕ) (rate : ℚ) :
    (peaks.length < 2 → calculate_heart_rate peaks rate = 0) ∧
    (2 ≤ peaks.length →
      calculate_heart_rate peaks rate =
        if 40 < 60 / npMean ((peaks.zip peaks.tail).map
              (fun pq => ((pq.2 : ℚ) - (pq.1 : ℚ)) / rate)) ∧
            60 / npMean ((peaks.zip peaks.tail).map
              (fun pq => ((pq.2 : ℚ) - (pq.1 : ℚ)) / rate)) < 200
        then 60 / npMean ((peaks.zip peaks.tail).map
              (fun pq => ((pq.2 : ℚ) - (pq.1 : ℚ)) / rate))
        else 0) ∧
    (calculate_heart_rate peaks rate = 0 ∨
      (40 < calculate_heart_rate peaks rate ∧
       calculate_heart_rate peaks rate < 200)) ∧
    calculate_heart_rate [0, 50, 100] 100 = 120 ∧
    calculate_heart_rate [0, 10] 100 = 0 := by
  refine ⟨?_, ?_, ?_, by decide, by decide⟩
  · intro h
    simp only [calculate_heart_rate]
    rw [if_pos h]
  · intro h
    simp only [calculate_heart_rate]
    rw [if_neg (by omega)]
  · simp only [calculate_heart_rate]
    split_ifs with h1 h2
    · exact Or.inl rfl
    · exact Or.inr h2
    · exact Or.inl rfl

theorem C3_heart_rate_estimator_witness :
    calculate_heart_rate [0] 100 = 0 ∧
    calculate_heart_rate [0, 50, 100] 100 = 120 :=
  ⟨(C3_heart_rate_estimator [0] 100).1 (by decide),
   (C3_heart_rate_estimator [0, 50, 100] 100).2.2.2.1⟩

/-- C6: pushing capacity + k samples into an empty sliding-window buffer
leaves exactly the most recent `capacity` samples in arrival order, the
length equals the capacity, and a push never grows the buffer past the
capacity. -/
theorem C6_buffer_eviction (cap k : ℕ) (xs : List ℚ)
    (hlen : xs.length = cap + k) :
    dq_pushAll cap [] xs = xs.drop k ∧
    (dq_pushAll cap [] xs).length = cap ∧
    (∀ (buf : List ℚ) (x : ℚ), buf.length ≤ cap →
      (dq_push cap buf x).length ≤ cap) := by
  have h1 : dq_pushAll cap [] xs = xs.drop k := by
    rw [dq_pushAll_eq_lastN cap [] xs (by simp), List.nil_append, lastN, hlen]
    congr 1
    omega
  refine ⟨h1, ?_, ?_⟩
  · rw [h1, List.length_drop, hlen]
    omega
  · intro buf x hb
    rw [dq_push_length]
    omega

theorem C6_buffer_eviction_witness :
    dq_pushAll 2 [] [1, 2, 3] = [2, 3] ∧
    (dq_pushAll 2 [] [1, 2, 3]).length = 2 :=
  ⟨((C6_buffer_eviction 2 1 [1, 2, 3] (by decide)).1).trans (by decide),
   (C6_buffer_eviction 2 1 [1, 2, 3] (by decide)).2.1⟩

/-- C9: the live and batch classification functions are extensionally
equal, and on aligned series the live and batch segmenters emit the same
alert segments. -/
theorem C9_live_batch_equivalence (hr spo2 eeg : List ℚ) (lo hi : ℚ)
    (times : List ℚ) (flags : List Bool)
    (hlen : times.length = flags.length) :
    detect_abnormalities_p_live hr spo2 = detect_abnormalities_p hr spo2 ∧
    detect_abnormalities_bis_live eeg lo hi =
      detect_abnormalities_bis eeg lo hi ∧
    draw_alert_boxes_live times flags = draw_alert_boxes_batch flags :=
  ⟨rfl, rfl, draw_alert_boxes_live_eq_batch times flags hlen⟩

theorem C9_live_batch_equivalence_witness :
    detect_abnormalities_p_live [130, 60] [85, 95] =
      detect_abnormalities_p [130, 60] [85, 95] ∧
    draw_alert_boxes_live [0, 1, 2] [true, true, false] =
      draw_alert_boxes_batch [true, true, false] :=
  ⟨(C9_live_batch_equivalence [130, 60] [85, 95] [] 20 80 [0, 1, 2]
      [true, true, false] (by decide)).1,
   (C9_live_batch_equivalence [130, 60] [85, 95] [] 20 80 [0, 1, 2]
      [true, true, false] (by decide)).2.2⟩

/-- C4 counterexample: at `rate_hz = 5` the detector returns peaks 1 and
3, which are 2 samples apart — closer than `0.5 * rate_hz = 2.5`
(`int(rate * 0.5)` truncates 2.5 to 2). -/
theorem C4_peak_detector_cex :
    detect_peaks [0, 1, 0, 9 / 10, 0, 0, 0, 0, 0, 0] 5 = some [1, 3] ∧
    ((3 : ℚ) - 1 < (1 / 2) * 5) := by decide

/-- C4 amended: the detector never returns two peaks closer than
`int(0.5 * rate_hz)` samples apart (which equals `0.5 * rate_hz` for the
deployed rate 100); it returns the empty set whenever fewer than 10
samples are available; and every returned peak clears the recomputed
adaptive threshold `mean + 0.5 * std`. -/
theorem C4_peak_detector (data : List ℚ) (rate : ℚ) (ps : List ℕ)
    (h : detect_peaks data rate = some ps) :
    (∀ a ∈ ps, ∀ b ∈ ps, a ≠ b →
      (pyInt (rate * (1 / 2))).toNat ≤ ((a : ℤ) - (b : ℤ)).natAbs) ∧
    (data.length < 10 → ps = []) ∧
    (∀ p ∈ ps,
      (npMean data : ℝ) + Real.sqrt (npVar data) / 2 ≤
        (data.getD p 0 : ℝ)) := by
  simp only [detect_peaks] at h
  split_ifs at h with h1 h2
  · injection h with h
    refine ⟨?_, fun _ => h.symm, ?_⟩
    · rw [← h]
      intro a ha
      exact absurd ha (List.not_mem_nil a)
    · rw [← h]
      intro p hp
      exact absurd hp (List.not_mem_nil p)
  · injection h with h
    refine ⟨?_, fun h10 => absurd h10 h1, ?_⟩
    · rw [← h]
      exact find_peaks_result_spacing _ _ _ (List.length_map _ _)
    · intro p hp
      rw [← h] at hp
      have hpc := find_peaks_result_subset _ _ _ p hp
      have hh := List.of_mem_filter hpc
      exact (heightOK_iff_real _ _ _ (npVar_nonneg data)).1 hh

theorem C4_peak_detector_witness :
    ((∀ a ∈ ([] : List ℕ), ∀ b ∈ ([] : List ℕ), a ≠ b →
      (pyInt (5 * (1 / 2))).toNat ≤ ((a : ℤ) - (b : ℤ)).natAbs) ∧
    ((List.replicate 10 (0 : ℚ)).length < 10 → ([] : List ℕ) = []) ∧
    (∀ p ∈ ([] : List ℕ),
      (npMean (List.replicate 10 (0 : ℚ)) : ℝ) +
        Real.sqrt (npVar (List.replicate 10 (0 : ℚ))) / 2 ≤
          ((List.replicate 10 (0 : ℚ)).getD p 0 : ℝ))) :=
  C4_peak_detector (List.replicate 10 0) 5 [] (by decide)

/-- C5: below 20 samples both filters return their input unchanged (an
explicit passthrough, not an error); at 20 samples or more the filtered
output has the length of the input. -/
theorem C5_filter_passthrough (data : List ℚ) (sos : List Biquad)
    (notch : Biquad) :
    (data.length < 20 →
      filter_ppg data sos = data ∧ filter_eeg data sos notch = some data) ∧
    (20 ≤ data.length →
      (filter_ppg data sos).length = data.length ∧
      ∃ out, filter_eeg data sos notch = some out ∧
        out.length = data.length) := by
  constructor
  · intro h
    constructor
    · rw [filter_ppg, if_pos h]
    · rw [filter_eeg, if_pos h]
  · intro h
    constructor
    · rw [filter_ppg, if_neg (by omega)]
      exact sosfilt_length sos data
    · rw [filter_eeg, if_neg (by omega)]
      obtain ⟨y, hy, hl⟩ := filtfilt_length notch (sosfilt sos data)
        (by rw [sosfilt_length]; omega)
      exact ⟨y, hy, by rw [hl, sosfilt_length]⟩

theorem C5_filter_passthrough_witness :
    (filter_ppg (List.replicate 5 (0 : ℚ)) [⟨1, 0, 0, 1, 0, 0⟩] =
      List.replicate 5 (0 : ℚ)) ∧
    ((filter_ppg (List.replicate 20 (0 : ℚ)) [⟨1, 0, 0, 1, 0, 0⟩]).length =
      (List.replicate 20 (0 : ℚ)).length) :=
  ⟨((C5_filter_passthrough (List.replicate 5 0) [⟨1, 0, 0, 1, 0, 0⟩]
      ⟨1, 0, 0, 1, 0, 0⟩).1 (by decide)).1,
   ((C5_filter_passthrough (List.replicate 20 0) [⟨1, 0, 0, 1, 0, 0⟩]
      ⟨1, 0, 0, 1, 0, 0⟩).2 (by decide)).1⟩

theorem calculate_heart_rate_zero_or_range (peaks : List ℕ) (rate : ℚ) :
    calculate_heart_rate peaks rate = 0 ∨
      (40 < calculate_heart_rate peaks rate ∧
       calculate_heart_rate peaks rate < 200) := by
  simp only [calculate_heart_rate]
  split_ifs with h1 h2
  · exact Or.inl rfl
  · exact Or.inr h2
  · exact Or.inl rfl

theorem dispStep_heart_rate_cases (sos : List Biquad) (s : DispState)
    (r : Option (ℚ × ℚ)) :
    (dispStep sos s r).heart_rate = s.heart_rate ∨
    ∃ pk, (dispStep sos s r).heart_rate = calculate_heart_rate pk 100 := by
  cases r with
  | none => exact Or.inl rfl
  | some pe =>
    by_cases h1 : 50 < (dq_push 3000 s.ppg_raw pe.1).length
    · by_cases h2 : 1 < ((detect_peaks (filter_ppg
          (dq_push 3000 s.ppg_raw pe.1) sos) 100).getD []).length
      · refine Or.inr ⟨(detect_peaks (filter_ppg
          (dq_push 3000 s.ppg_raw pe.1) sos) 100).getD [], ?_⟩
        simp only [dispStep]
        rw [if_pos h1, if_pos h2]
      · refine Or.inl ?_
        simp only [dispStep]
        rw [if_pos h1, if_neg h2]
    · refine Or.inl ?_
      simp only [dispStep]
      rw [if_neg h1]

theorem runDisplay_heart_rate_inv (sos : List Biquad)
    (readings : List (Option (ℚ × ℚ))) :
    (runDisplay sos readings).heart_rate = 0 ∨
      (40 < (runDisplay sos readings).heart_rate ∧
       (runDisplay sos readings).heart_rate < 200) := by
  rw [runDisplay]
  suffices h : ∀ s : DispState,
      (s.heart_rate = 0 ∨ (40 < s.heart_rate ∧ s.heart_rate < 200)) →
      ((readings.foldl (dispStep sos) s).heart_rate = 0 ∨
        (40 < (readings.foldl (dispStep sos) s).heart_rate ∧
         (readings.foldl (dispStep sos) s).heart_rate < 200)) by
    exact h dispInit (Or.inl rfl)
  induction readings with
  | nil => intro s hs; exact hs
  | cons r rs ih =>
    intro s hs
    apply ih
    rcases dispStep_heart_rate_cases sos s r with he | ⟨pk, he⟩
    · rw [he]; exact hs
    · rw [he]; exact calculate_heart_rate_zero_or_range pk 100

/-- Identity coefficient section, used to instantiate the parametric
filter bank in concrete runs. -/
def sosId : List Biquad := [⟨1, 0, 0, 1, 0, 0⟩]

/-- A session whose first 53 PPG samples carry beat-like spikes (value
10 at indices 1 and 51) and whose last sample is a large artifact.  At
window length 53 the detector finds the two peaks and publishes 120 bpm;
the final artifact raises the adaptive threshold so the final window has
no peaks at all. -/
def staleTrace : List (Option (ℚ × ℚ)) :=
  [some (0, 0), some (10, 0)] ++ List.replicate 49 (some (0, 0)) ++
  [some (10, 0), some (0, 0), some (1000, 0)]

/-- C7 counterexample: after the final update of this session the
current window yields no peaks (fewer than 2), yet the published heart
rate remains the stale 120 bpm from an earlier window instead of being
reported as 0/invalid. -/
theorem C7_stream_processor_cex :
    (runDisplay sosId staleTrace).heart_rate = 120 ∧
    (runDisplay sosId staleTrace).peaks = [] ∧
    detect_peaks (filter_ppg (runDisplay sosId staleTrace).ppg_raw sosId) 100
      = some [] := by decide

/-- C7 amended: on each update with a parsed reading, the heart rate is
recomputed from the current window only when the window holds more than
50 samples and at least 2 peaks (the recomputed value is then 0 when
outside (40, 200)); with at most 50 samples or fewer than 2 peaks the
previously published value is retained unchanged; consequently every
published value is 0 or lies strictly inside (40, 200). -/
theorem C7_heart_rate_publication (sos : List Biquad) (s : DispState)
    (p e : ℚ) (readings : List (Option (ℚ × ℚ))) :
    (50 < (dq_push 3000 s.ppg_raw p).length →
      1 < ((detect_peaks (filter_ppg (dq_push 3000 s.ppg_raw p) sos)
          100).getD []).length →
      (dispStep sos s (some (p, e))).heart_rate =
        calculate_heart_rate
          ((detect_peaks (filter_ppg (dq_push 3000 s.ppg_raw p) sos)
            100).getD []) 100) ∧
    (50 < (dq_push 3000 s.ppg_raw p).length →
      ((detect_peaks (filter_ppg (dq_push 3000 s.ppg_raw p) sos)
          100).getD []).length ≤ 1 →
      (dispStep sos s (some (p, e))).heart_rate = s.heart_rate) ∧
    ((dq_push 3000 s.ppg_raw p).length ≤ 50 →
      (dispStep sos s (some (p, e))).heart_rate = s.heart_rate) ∧
    ((runDisplay sos readings).heart_rate = 0 ∨
      (40 < (runDisplay sos readings).heart_rate ∧
       (runDisplay sos readings).heart_rate < 200)) := by
  refine ⟨?_, ?_, ?_, runDisplay_heart_rate_inv sos readings⟩
  · intro h1 h2
    simp only [dispStep]
    rw [if_pos h1, if_pos h2]
  · intro h1 h2
    simp only [dispStep]
    rw [if_pos h1, if_neg (by omega)]
  · intro h1
    simp only [dispStep]
    rw [if_neg (by omega)]

theorem C7_heart_rate_publication_witness :
    (dispStep sosId dispInit (some (0, 0))).heart_rate =
      dispInit.heart_rate ∧
    ((runDisplay sosId []).heart_rate = 0 ∨
      (40 < (runDisplay sosId []).heart_rate ∧
        (runDisplay sosId []).heart_rate < 200)) :=
  ⟨(C7_heart_rate_publication sosId dispInit 0 0 []).2.2.1 (by decide),
   (C7_heart_rate_publication sosId dispInit 0 0 []).2.2.2⟩

/-- C8 counterexample: a sample whose timestamp 3 is not greater than
the previous timestamp 5, and a sample with a negative timestamp, are
both appended with no error report and visibly change the buffer
state. -/
theorem C8_push_validation_cex :
    ((RTBuf.init 180).update 5 80 95 none |>.update 3 80 95 none).time_buffer
      = [5, 3] ∧
    ((RTBuf.init 180).update (-1) 80 95 none).time_buffer = [-1] := by
  decide

/-- C8 amended: the only rejected inputs are serial lines that fail to
parse (`read_data` yields nothing and the update leaves the state
untouched, the session continuing); every parsed sample is appended
unconditionally — no NaN, negative-timestamp or monotonicity validation
exists on any buffer path. -/
theorem C8_push_no_validation (sos : List Biquad) (s : DispState)
    (b : RTBuf) (t hrv spv pv ev : ℚ) (ee : Option ℚ) :
    dispStep sos s none = s ∧
    (dispStep sos s (some (pv, ev))).ppg_raw = dq_push 3000 s.ppg_raw pv ∧
    (b.update t hrv spv ee).time_buffer =
      dq_push b.window_size b.time_buffer t ∧
    (b.update t hrv spv ee).hr_buffer =
      dq_push b.window_size b.hr_buffer hrv ∧
    (b.update t hrv spv ee).spo2_buffer =
      dq_push b.window_size b.spo2_buffer spv := by
  refine ⟨rfl, ?_, rfl, rfl, rfl⟩
  by_cases h1 : 50 < (dq_push 3000 s.ppg_raw pv).length
  · by_cases h2 : 1 < ((detect_peaks (filter_ppg
        (dq_push 3000 s.ppg_raw pv) sos) 100).getD []).length
    · simp only [dispStep]
      rw [if_pos h1, if_pos h2]
    · simp only [dispStep]
      rw [if_pos h1, if_neg h2]
  · simp only [dispStep]
    rw [if_neg h1]

theorem C8_push_no_validation_witness :
    ((RTBuf.init 180).update 5 80 95 none).time_buffer =
      dq_push (RTBuf.init 180).window_size (RTBuf.init 180).time_buffer 5 :=
  (C8_push_no_validation sosId dispInit (RTBuf.init 180)
    5 80 95 0 0 none).2.2.1

/-- C10 counterexample: with window size 1, an update carrying an EEG
value followed by an update with no EEG value leaves the EEG and time
buffers with the same length — the None call did not leave the EEG
buffer shorter. -/
theorem C10_eeg_alignment_cex :
    (runBuf 1 [(0, 80, 95, some 50), (1, 80, 95, none)]).eeg_buffer
      = [50] ∧
    (runBuf 1 [(0, 80, 95, some 50), (1, 80, 95, none)]).time_buffer
      = [1] ∧
    (runBuf 1 [(0, 80, 95, some 50), (1, 80, 95, none)]).eeg_buffer.length =
      (runBuf 1 [(0, 80, 95, some 50), (1, 80, 95, none)]).time_buffer.length
      := by decide

/-- C10 amended: the time, heart-rate and SpO2 buffers always share one
length; an update with `eeg_val = None` leaves the EEG buffer strictly
shorter than the time buffer unless both already sit at the window
capacity (in which case they stay equal); 1:1 index alignment of the EEG
series with the time series is therefore not guaranteed (a single
None-EEG call from empty leaves lengths 0 and 1). -/
theorem C10_eeg_buffer_lag (w : ℕ) (calls : List (ℚ × ℚ × ℚ × Option ℚ))
    (t hrv spv : ℚ) :
    ((runBuf w calls).hr_buffer.length =
        (runBuf w calls).time_buffer.length ∧
      (runBuf w calls).spo2_buffer.length =
        (runBuf w calls).time_buffer.length) ∧
    (((runBuf w calls).update t hrv spv none).eeg_buffer.length <
        ((runBuf w calls).update t hrv spv none).time_buffer.length ∨
      (((runBuf w calls).update t hrv spv none).eeg_buffer.length = w ∧
        ((runBuf w calls).update t hrv spv none).time_buffer.length = w)) ∧
    (runBuf 180 [(0, 0, 0, none)]).eeg_buffer.length ≠
      (runBuf 180 [(0, 0, 0, none)]).time_buffer.length := by
  obtain ⟨hw, h1, h2, h3, h4⟩ := bufInv_runBuf w calls
  refine ⟨⟨h1, h2⟩, ?_, by decide⟩
  have he : ((runBuf w calls).update t hrv spv none).eeg_buffer =
      (runBuf w calls).eeg_buffer := rfl
  have ht : ((runBuf w calls).update t hrv spv none).time_buffer =
      dq_push (runBuf w calls).window_size (runBuf w calls).time_buffer t :=
    rfl
  rw [he, ht, dq_push_length, hw]
  omega

theorem C10_eeg_buffer_lag_witness :
    ((runBuf 1 [(0, 80, 95, some 50)]).update 1 80 95 none).eeg_buffer.length <
        ((runBuf 1 [(0, 80, 95, some 50)]).update 1 80 95
          none).time_buffer.length ∨
      (((runBuf 1 [(0, 80, 95, some 50)]).update 1 80 95
          none).eeg_buffer.length = 1 ∧
        ((runBuf 1 [(0, 80, 95, some 50)]).update 1 80 95
          none).time_buffer.length = 1) :=
  (C10_eeg_buffer_lag 1 [(0, 80, 95, some 50)] 1 80 95).2.1

end BN3101A